import Mathlib

/-!
Verification of the log child window core (`log_child_os_window.rs`)

This file gives a shallow embedding of the log ingestion, classification,
retention and view-derivation pipeline of `LogChildOsWindow`, and proves the
specified properties about it.

Modelling conventions:
* `VecDeque<LogMessage>` rings are `List LogMessage`, oldest at the head;
  `push_back` is `++ [m]`, `pop_front` is `drop 1`.
* Rust `String` content is `List Char`; `str::contains` / `str::replace`
  of the `[__GAME__]` marker are `containsMarker` / `stripMarker` below
  (leftmost, non-overlapping matches, as in Rust).
* The `FxHashMap<(MessageKind, String), usize>` of the deriver is an
  association list `List (MsgKey × Nat)`; only lookups and per-key updates
  are performed on it, so the representation is faithful.
* The widget sink is the list of children of the log stack panel; the
  asynchronous `WidgetMessage::remove` / `link` pair amounts to replacing
  the child list on each re-render (stateless re-render).
-/

namespace LogView

/-- `MessageKind` from `fyrox::core::log`. -/
inductive MessageKind where
  | Information
  | Warning
  | Error
deriving DecidableEq, Repr

/-- `LogMessage` from `fyrox::core::log`: one log record. -/
structure LogMessage where
  kind : MessageKind
  content : List Char
deriving DecidableEq, Repr

/-- The fold key `(kind, content)` used by the deriver. -/
abbrev MsgKey := MessageKind × List Char

/-- The literal marker `[__GAME__]` scanned for by the source classifier. -/
def gameMarker : List Char := ['[', '_', '_', 'G', 'A', 'M', 'E', '_', '_', ']']

/-- `content.contains("[__GAME__]")`: substring containment at any position. -/
def containsMarker : List Char → Bool
  | [] => false
  | c :: rest => gameMarker.isPrefixOf (c :: rest) || containsMarker rest

/-- Scanner for `content.replace("[__GAME__]", "")`: `skip` counts characters
of an already-matched marker occurrence still to be discarded; at `skip = 0`,
when the marker starts at the current position its characters are discarded
(this one plus `gameMarker.length - 1` more), otherwise the character is kept.
This removes the leftmost non-overlapping occurrences, as Rust `str::replace`
does. -/
def stripMarkerGo : Nat → List Char → List Char
  | _, [] => []
  | skip + 1, _ :: rest => stripMarkerGo skip rest
  | 0, c :: rest =>
    if gameMarker.isPrefixOf (c :: rest) then
      stripMarkerGo (gameMarker.length - 1) rest
    else
      c :: stripMarkerGo 0 rest

/-- `content.replace("[__GAME__]", "")`. -/
def stripMarker (s : List Char) : List Char := stripMarkerGo 0 s

/-- Brushes used by the render adapter (identity only matters). -/
inductive Brush where
  | information
  | warning
  | error
  | light
  | dark
deriving DecidableEq, Repr

/-- One rendered row in the log stack panel. -/
structure RenderedNode where
  text : List Char
  foreground : Brush
  background : Brush
deriving DecidableEq, Repr

/-- The core state of `LogChildOsWindow`: checkbox handles (as plain ids),
filter booleans, the two rings, the capacity, and the children of the log
stack panel (the UI sink). -/
structure LogChildOsWindow where
  info_checkbox : Nat
  warning_checkbox : Nat
  error_checkbox : Nat
  engine_checkbox : Nat
  game_checkbox : Nat
  info_checked : Bool
  warning_checked : Bool
  error_checked : Bool
  engine_checked : Bool
  game_checked : Bool
  messages_from_engine : List LogMessage
  messages_from_game : List LogMessage
  max_messages : Nat
  log_stack_children : List RenderedNode
deriving DecidableEq, Repr

/-! ## Ingestion: the body of the `try_recv` loop in `update` -/

/-- One iteration of the receive loop in `update` (lines 309-323): classify by
marker, strip the marker when routing to the Game ring, append, evict the head
when the ring exceeds `max_messages`. -/
def ingestOne (s : LogChildOsWindow) (m : LogMessage) : LogChildOsWindow :=
  if containsMarker m.content then
    let m2 : LogMessage := { m with content := stripMarker m.content }
    let ring := s.messages_from_game ++ [m2]
    let ring2 := if ring.length > s.max_messages then ring.drop 1 else ring
    { s with messages_from_game := ring2 }
  else
    let ring := s.messages_from_engine ++ [m]
    let ring2 := if ring.length > s.max_messages then ring.drop 1 else ring
    { s with messages_from_engine := ring2 }

/-- The whole receive loop: ingest every queued record in arrival order. -/
def ingestAll (s : LogChildOsWindow) (msgs : List LogMessage) : LogChildOsWindow :=
  msgs.foldl ingestOne s

/-! ## View model derivation: `update_log_message_model` -/

/-- The `continue` condition of the fold loop (lines 235-240): the record is
skipped when the checkbox for its kind is off. -/
def kindRejected (s : LogChildOsWindow) (m : LogMessage) : Bool :=
  (m.kind == MessageKind.Information && !s.info_checked) ||
  (m.kind == MessageKind.Warning && !s.warning_checked) ||
  (m.kind == MessageKind.Error && !s.error_checked)

/-- The fold key of a record. -/
def keyOf (m : LogMessage) : MsgKey := (m.kind, m.content)

/-- Lookup in the `visited_messages` map (modelled as an association list). -/
def lookupCount (visited : List (MsgKey × Nat)) (k : MsgKey) : Option Nat :=
  match visited with
  | [] => none
  | (k2, n) :: rest => if k2 = k then some n else lookupCount rest k

/-- `*count += 1` through `get_mut`: increment the entry for `k`. -/
def bumpCount (visited : List (MsgKey × Nat)) (k : MsgKey) : List (MsgKey × Nat) :=
  visited.map (fun p => if p.1 = k then (p.1, p.2 + 1) else p)

/-- The inner loop of `update_log_message_model` (lines 234-248) over one ring,
already reversed (`messages.iter().rev()`): skip kind-rejected records, count
repeated keys, record each new key in `folded_messages_rev`. -/
def processRing (s : LogChildOsWindow) :
    List LogMessage → List (MsgKey × Nat) × List MsgKey → List (MsgKey × Nat) × List MsgKey
  | [], acc => acc
  | m :: rest, (visited, foldedRev) =>
    if kindRejected s m then
      processRing s rest (visited, foldedRev)
    else
      match lookupCount visited (keyOf m) with
      | some _ => processRing s rest (bumpCount visited (keyOf m), foldedRev)
      | none => processRing s rest (visited ++ [(keyOf m, 1)], foldedRev ++ [keyOf m])

/-- The outer loop (lines 229-250): the Game ring first, then the Engine ring,
each only when its source checkbox is on, each traversed newest-first. -/
def foldRings (s : LogChildOsWindow) : List (MsgKey × Nat) × List MsgKey :=
  let acc0 : List (MsgKey × Nat) × List MsgKey := ([], [])
  let acc1 := if s.game_checked then processRing s s.messages_from_game.reverse acc0 else acc0
  if s.engine_checked then processRing s s.messages_from_engine.reverse acc1 else acc1

/-- One folded view item `(kind, content, count)`. -/
structure ViewItem where
  kind : MessageKind
  content : List Char
  count : Nat
deriving DecidableEq, Repr

/-- The derived view model: `folded_messages_rev` emitted in reverse
(lines 253-255), each key paired with its count from `visited_messages`. -/
def derivedView (s : LogChildOsWindow) : List ViewItem :=
  let acc := foldRings s
  acc.2.reverse.map (fun k => ⟨k.1, k.2, (lookupCount acc.1 k).getD 0⟩)

/-- The keys of the view items, top-to-bottom. -/
def viewKeys (s : LogChildOsWindow) : List MsgKey :=
  (derivedView s).map (fun it => (it.kind, it.content))

/-- Display text of one item (line 256-260): `"{content} (x{count})"` when the
count exceeds one, the bare content otherwise. -/
def displayText (content : List Char) (count : Nat) : List Char :=
  if count > 1 then content ++ [' ', '(', 'x'] ++ (Nat.repr count).data ++ [')']
  else content

/-- Foreground brush by message kind (lines 274-282). -/
def brushOfKind : MessageKind → Brush
  | MessageKind.Information => Brush.information
  | MessageKind.Warning => Brush.warning
  | MessageKind.Error => Brush.error

/-- The render adapter (lines 253-295): one styled text row per view item, with
background brush alternating on the emission index. -/
def renderItems (items : List ViewItem) : List RenderedNode :=
  items.enum.map (fun p =>
    { text := displayText p.2.content p.2.count
      foreground := brushOfKind p.2.kind
      background := if p.1 % 2 == 0 then Brush.light else Brush.dark })

/-- `update_log_message_model` (lines 216-296): remove every child of the log
stack panel, then rebuild one row per folded message. -/
def update_log_message_model (s : LogChildOsWindow) : LogChildOsWindow :=
  { s with log_stack_children := renderItems (derivedView s) }

/-! ## UI messages: `handle_ui_message` and `poll_ui_messages` -/

/-- `MessageDirection` of the UI library. -/
inductive MessageDirection where
  | ToWidget
  | FromWidget
deriving DecidableEq, Repr

/-- The payload of a UI message: either a `CheckBoxMessage::Check` or anything
else (whose content is irrelevant here). -/
inductive UiMessageData where
  | checkBoxCheck (value : Option Bool)
  | other
deriving DecidableEq, Repr

/-- A UI message `(destination, direction, payload)`. -/
structure UiMessage where
  destination : Nat
  direction : MessageDirection
  data : UiMessageData
deriving DecidableEq, Repr

/-- The nested `handle_check_changed` (lines 387-401): when the message targets
`checkbox` with direction `FromWidget`, the new flag is
`check.map_or(false, |c| c)`; otherwise the flag is unchanged. -/
def handle_check_changed (message : UiMessage) (check : Option Bool)
    (checkbox : Nat) (checked : Bool) : Bool :=
  if message.destination = checkbox ∧ message.direction = MessageDirection.FromWidget then
    ((check.map (fun c => c)).getD false)
  else checked

/-- `handle_ui_message` (lines 385-438): on any `CheckBoxMessage` run
`handle_check_changed` for the five checkboxes and report that the model
requires an update; otherwise do nothing. -/
def handle_ui_message (s : LogChildOsWindow) (message : UiMessage) :
    LogChildOsWindow × Bool :=
  match message.data with
  | UiMessageData.checkBoxCheck check =>
    let s1 := { s with
      info_checked := handle_check_changed message check s.info_checkbox s.info_checked }
    let s2 := { s1 with
      warning_checked := handle_check_changed message check s1.warning_checkbox s1.warning_checked }
    let s3 := { s2 with
      error_checked := handle_check_changed message check s2.error_checkbox s2.error_checked }
    let s4 := { s3 with
      engine_checked := handle_check_changed message check s3.engine_checkbox s3.engine_checked }
    let s5 := { s4 with
      game_checked := handle_check_changed message check s4.game_checkbox s4.game_checked }
    (s5, true)
  | UiMessageData.other => (s, false)

/-- `poll_ui_messages` (lines 374-382): handle every queued UI message; the
flag is the disjunction of the per-message flags. -/
def poll_ui_messages (s : LogChildOsWindow) (msgs : List UiMessage) :
    LogChildOsWindow × Bool :=
  msgs.foldl (fun acc m =>
    let r := handle_ui_message acc.1 m
    (r.1, acc.2 || r.2)) (s, false)

/-! ## The auxiliary message channel and the tick -/

/-- The editor `Message` seen by this window: `Exit { force }` or any other
variant (ignored by the drain loop). -/
inductive Message where
  | Exit (force : Bool)
  | other
deriving DecidableEq, Repr

/-- Whether a message is the `Exit` variant. -/
def Message.isExit : Message → Bool
  | Message.Exit _ => true
  | Message.other => false

/-- The fatal text raised when `Exit` reaches this drain loop (line 347). -/
def exitFatalText : String :=
  "This should be handled directly in WindowEvent::CloseRequested"

/-- The drain loop over `message_receiver` (lines 344-351): ignore every
message until an `Exit`, which aborts the tick fatally. `none` means the loop
finished normally. -/
def drainAuxMessages : List Message → Option String
  | [] => none
  | Message.Exit _ :: _ => some exitFatalText
  | Message.other :: rest => drainAuxMessages rest

/-- The observable outcome of one tick. -/
structure TickResult where
  state : LogChildOsWindow
  model_updated : Bool
  fatalMessage : Option String
deriving Repr

/-- The core of `update` (lines 299-356): drain the log channel (classify and
append), drain the UI queue, re-derive the view when anything was received or a
UI message required it, then drain the auxiliary channel (fatal on `Exit`).
The graphics-context and fixed-timestep engine steps touch none of this state
and are out of scope. -/
def update (s : LogChildOsWindow) (logMsgs : List LogMessage)
    (uiMsgs : List UiMessage) (auxMsgs : List Message) : TickResult :=
  let received_anything := !logMsgs.isEmpty
  let s1 := ingestAll s logMsgs
  let polled := poll_ui_messages s1 uiMsgs
  let requiresUpdate := received_anything || polled.2
  let s2 := if requiresUpdate then update_log_message_model polled.1 else polled.1
  { state := s2, model_updated := requiresUpdate, fatalMessage := drainAuxMessages auxMsgs }

/-! ## Derived notions used by the specification statements -/

/-- The kind gate of the filter snapshot: which checkbox admits this kind. -/
def kindGate (s : LogChildOsWindow) : MessageKind → Bool
  | MessageKind.Information => s.info_checked
  | MessageKind.Warning => s.warning_checked
  | MessageKind.Error => s.error_checked

/-- The records traversed by the deriver, in traversal order: the Game ring
newest-first (when admitted), then the Engine ring newest-first. -/
def traversalMsgs (s : LogChildOsWindow) : List LogMessage :=
  (if s.game_checked then s.messages_from_game.reverse else []) ++
  (if s.engine_checked then s.messages_from_engine.reverse else [])

/-- The admissible records in traversal order: source gate and kind gate. -/
def admissibleTraversal (s : LogChildOsWindow) : List LogMessage :=
  (traversalMsgs s).filter (fun m => !kindRejected s m)

/-- The union of the source-gate-admitted rings in forward (oldest-first) send
order, Engine ring first: the reverse of the traversal order. -/
def forwardUnion (s : LogChildOsWindow) : List LogMessage :=
  (if s.engine_checked then s.messages_from_engine else []) ++
  (if s.game_checked then s.messages_from_game else [])

/-- The admissible records of the forward union. -/
def admissibleForward (s : LogChildOsWindow) : List LogMessage :=
  (forwardUnion s).filter (fun m => !kindRejected s m)

/-- The keys of the admissible records in traversal order. -/
def admKeys (s : LogChildOsWindow) : List MsgKey :=
  (admissibleTraversal s).map keyOf

/-- Number of admissible records, counted per ring as the specification does. -/
def admissibleCount (s : LogChildOsWindow) : Nat :=
  (if s.game_checked then
    ((s.messages_from_game.filter (fun m => !kindRejected s m)).length) else 0) +
  (if s.engine_checked then
    ((s.messages_from_engine.filter (fun m => !kindRejected s m)).length) else 0)

/-- Sum of the `count` fields of a view. -/
def sumCounts (items : List ViewItem) : Nat :=
  (items.map (fun it => it.count)).sum

/-- Occurrences of a key in a key list. -/
def countKey (k : MsgKey) : List MsgKey → Nat
  | [] => 0
  | k2 :: rest => (if k2 = k then 1 else 0) + countKey k rest

/-- First-seen de-duplication with an explicit seen set: the pure skeleton of
the `folded_messages_rev` accumulation. -/
def foldedKeys (seen : List MsgKey) : List MsgKey → List MsgKey
  | [] => []
  | k :: rest => if k ∈ seen then foldedKeys seen rest else k :: foldedKeys (k :: seen) rest

/-- The five filter booleans as one tuple (the filter snapshot). -/
def filterSnapshot (s : LogChildOsWindow) : Bool × Bool × Bool × Bool × Bool :=
  (s.info_checked, s.warning_checked, s.error_checked, s.engine_checked, s.game_checked)

/-- Whether a UI message carries a `CheckBoxMessage` payload. -/
def isCheckBoxMsg (m : UiMessage) : Bool :=
  match m.data with
  | UiMessageData.checkBoxCheck _ => true
  | UiMessageData.other => false

/-- A concrete window state used by concrete instances: distinct checkbox
handles, all filters on, empty rings, the default capacity. -/
def baseState : LogChildOsWindow :=
  { info_checkbox := 1, warning_checkbox := 2, error_checkbox := 3,
    engine_checkbox := 4, game_checkbox := 5,
    info_checked := true, warning_checked := true, error_checked := true,
    engine_checked := true, game_checked := true,
    messages_from_engine := [], messages_from_game := [],
    max_messages := 1000, log_stack_children := [] }

/-- The content `"[__GAME[__GAME__]__]"`: removing the inner marker occurrence
re-creates a marker occurrence in the stored content. -/
def nestedMarkerContent : List Char :=
  ['[', '_', '_', 'G', 'A', 'M', 'E',
   '[', '_', '_', 'G', 'A', 'M', 'E', '_', '_', ']',
   '_', '_', ']']

/-! ## Helper lemmas about the classifier -/

theorem stripMarkerGo_length_le (l : List Char) :
    ∀ skip, (stripMarkerGo skip l).length ≤ l.length - skip := by
  induction l with
  | nil => intro skip; cases skip <;> simp [stripMarkerGo]
  | cons c rest ih =>
    intro skip
    cases skip with
    | succ n =>
      simp only [stripMarkerGo, List.length_cons]
      have := ih n
      omega
    | zero =>
      simp only [stripMarkerGo, List.length_cons, Nat.sub_zero]
      split
      · have := ih (gameMarker.length - 1)
        omega
      · simp only [List.length_cons]
        have := ih 0
        omega

theorem stripMarker_length_le (l : List Char) : (stripMarker l).length ≤ l.length := by
  have := stripMarkerGo_length_le l 0
  simpa [stripMarker] using this

theorem stripMarker_length_of_contains (l : List Char) (h : containsMarker l = true) :
    (stripMarker l).length + gameMarker.length ≤ l.length := by
  rw [stripMarker]
  induction l with
  | nil => simp [containsMarker] at h
  | cons c rest ih =>
    simp only [stripMarkerGo, List.length_cons]
    by_cases hp : gameMarker.isPrefixOf (c :: rest) = true
    · rw [if_pos hp]
      have h1 := stripMarkerGo_length_le rest (gameMarker.length - 1)
      have h2 := (List.isPrefixOf_iff_prefix.mp hp).length_le
      have h3 : 1 ≤ gameMarker.length := by decide
      simp only [List.length_cons] at h2
      omega
    · rw [if_neg hp]
      rw [containsMarker, Bool.or_eq_true] at h
      rcases h with h | h
      · exact absurd h hp
      · have := ih h
        simp only [List.length_cons]
        omega

/-! ## Claim C2: classification, marker stripping, routing -/

theorem ingestOne_of_contains (s : LogChildOsWindow) (m : LogMessage)
    (hc : containsMarker m.content = true) :
    ingestOne s m = { s with messages_from_game :=
      if (s.messages_from_game ++ [(⟨m.kind, stripMarker m.content⟩ : LogMessage)]).length > s.max_messages
      then (s.messages_from_game ++ [(⟨m.kind, stripMarker m.content⟩ : LogMessage)]).drop 1
      else s.messages_from_game ++ [(⟨m.kind, stripMarker m.content⟩ : LogMessage)] } := by
  simp only [ingestOne, hc, if_true]

theorem ingestOne_of_not_contains (s : LogChildOsWindow) (m : LogMessage)
    (hc : containsMarker m.content = false) :
    ingestOne s m = { s with messages_from_engine :=
      if (s.messages_from_engine ++ [m]).length > s.max_messages
      then (s.messages_from_engine ++ [m]).drop 1
      else s.messages_from_engine ++ [m] } := by
  simp only [ingestOne, hc, Bool.false_eq_true, if_false]

/-- C2 (amended). A record whose content contains `[__GAME__]` is stored in the
Game ring (Engine ring untouched); its stored content is the original content
with all leftmost non-overlapping occurrences of the marker replaced by the
empty string — each removal shortens the content by a full marker length, but
the removal can itself create a fresh marker occurrence, so the stored content
need not be marker-free. A record without the marker goes to the Engine ring
with content unchanged. -/
theorem claim_C2_amended (s : LogChildOsWindow) (m : LogMessage) :
    (containsMarker m.content = true →
      (ingestOne s m).messages_from_engine = s.messages_from_engine ∧
      (ingestOne s m).messages_from_game =
        (let ring := s.messages_from_game ++ [(⟨m.kind, stripMarker m.content⟩ : LogMessage)]
         if ring.length > s.max_messages then ring.drop 1 else ring) ∧
      (stripMarker m.content).length + gameMarker.length ≤ m.content.length) ∧
    (containsMarker m.content = false →
      (ingestOne s m).messages_from_game = s.messages_from_game ∧
      (ingestOne s m).messages_from_engine =
        (let ring := s.messages_from_engine ++ [m]
         if ring.length > s.max_messages then ring.drop 1 else ring)) := by
  constructor
  · intro h
    rw [ingestOne_of_contains s m h]
    exact ⟨rfl, rfl, stripMarker_length_of_contains m.content h⟩
  · intro h
    rw [ingestOne_of_not_contains s m h]
    exact ⟨rfl, rfl⟩

/-- C2 witness: a marked record `"[__GAME__]hello"` is routed to the Game ring
as `"hello"`, and an unmarked record `"plain"` is routed to the Engine ring
unchanged. -/
theorem claim_C2_amended_witness :
    ((ingestOne baseState ⟨MessageKind.Information,
        gameMarker ++ ['h', 'e', 'l', 'l', 'o']⟩).messages_from_engine = [] ∧
      (ingestOne baseState ⟨MessageKind.Information,
        gameMarker ++ ['h', 'e', 'l', 'l', 'o']⟩).messages_from_game =
        (let ring := ([] : List LogMessage) ++
          [⟨MessageKind.Information, stripMarker (gameMarker ++ ['h', 'e', 'l', 'l', 'o'])⟩]
         if ring.length > 1000 then ring.drop 1 else ring) ∧
      (stripMarker (gameMarker ++ ['h', 'e', 'l', 'l', 'o'])).length + gameMarker.length ≤
        (gameMarker ++ ['h', 'e', 'l', 'l', 'o']).length) ∧
    (ingestOne baseState ⟨MessageKind.Warning, ['p', 'l', 'a', 'i', 'n']⟩).messages_from_engine =
      (let ring := ([] : List LogMessage) ++ [⟨MessageKind.Warning, ['p', 'l', 'a', 'i', 'n']⟩]
       if ring.length > 1000 then ring.drop 1 else ring) := by
  refine ⟨(claim_C2_amended baseState
      ⟨MessageKind.Information, gameMarker ++ ['h', 'e', 'l', 'l', 'o']⟩).1 (by decide), ?_⟩
  exact ((claim_C2_amended baseState
      ⟨MessageKind.Warning, ['p', 'l', 'a', 'i', 'n']⟩).2 (by decide)).2

/-- C2 counterexample: ingesting `"[__GAME[__GAME__]__]"` stores a Game-ring
record whose content is exactly `"[__GAME__]"`, which still contains the
marker — the claim "the stored content contains no occurrence of
`[__GAME__]`" is false. -/
theorem claim_C2_counterexample :
    (ingestOne baseState ⟨MessageKind.Information, nestedMarkerContent⟩).messages_from_game =
      [⟨MessageKind.Information, gameMarker⟩] ∧
    containsMarker gameMarker = true ∧
    containsMarker nestedMarkerContent = true := by
  decide

/-! ## Claim C5: bounded rings with head eviction -/

/-- Both rings fit in the capacity. -/
def ringsBounded (s : LogChildOsWindow) : Prop :=
  s.messages_from_game.length ≤ s.max_messages ∧
  s.messages_from_engine.length ≤ s.max_messages

theorem ingestOne_max (s : LogChildOsWindow) (m : LogMessage) :
    (ingestOne s m).max_messages = s.max_messages := by
  by_cases hc : containsMarker m.content = true
  · rw [ingestOne_of_contains s m hc]
  · rw [ingestOne_of_not_contains s m (by simpa using hc)]

theorem ingestOne_bounded (s : LogChildOsWindow) (m : LogMessage)
    (h : ringsBounded s) : ringsBounded (ingestOne s m) := by
  obtain ⟨hg, he⟩ := h
  unfold ringsBounded
  by_cases hc : containsMarker m.content = true
  · rw [ingestOne_of_contains s m hc]
    refine ⟨?_, he⟩
    dsimp only
    split
    next hlen =>
      simp only [List.length_drop, List.length_append, List.length_cons, List.length_nil] at hlen ⊢
      omega
    next hlen =>
      simp only [List.length_append, List.length_cons, List.length_nil] at hlen ⊢
      omega
  · rw [ingestOne_of_not_contains s m (by simpa using hc)]
    refine ⟨hg, ?_⟩
    dsimp only
    split
    next hlen =>
      simp only [List.length_drop, List.length_append, List.length_cons, List.length_nil] at hlen ⊢
      omega
    next hlen =>
      simp only [List.length_append, List.length_cons, List.length_nil] at hlen ⊢
      omega

theorem ingestAll_bounded (msgs : List LogMessage) (s : LogChildOsWindow)
    (h : ringsBounded s) : ringsBounded (ingestAll s msgs) := by
  induction msgs generalizing s with
  | nil => exact h
  | cons m rest ih => exact ih (ingestOne s m) (ingestOne_bounded s m h)

theorem ingestAll_max (msgs : List LogMessage) (s : LogChildOsWindow) :
    (ingestAll s msgs).max_messages = s.max_messages := by
  induction msgs generalizing s with
  | nil => rfl
  | cons m rest ih => rw [ingestAll, List.foldl_cons, ← ingestAll, ih, ingestOne_max]

/-- C5. (1) Starting from any state whose rings are within the capacity, any
sequence of ingested records leaves both ring sizes at most `max_messages`
(initially the rings are empty, so this holds along every run). (2) When an
append hits a full ring (`size = MAX > 0`), the head is dropped: the
post-append ring is the previous ring minus its head plus the newly stored
record at the tail. -/
theorem claim_C5 (s : LogChildOsWindow) (msgs : List LogMessage) (m : LogMessage)
    (hb : ringsBounded s) :
    ((ingestAll s msgs).messages_from_game.length ≤ s.max_messages ∧
     (ingestAll s msgs).messages_from_engine.length ≤ s.max_messages) ∧
    (containsMarker m.content = true →
      s.messages_from_game.length = s.max_messages → 0 < s.max_messages →
      (ingestOne s m).messages_from_game =
        s.messages_from_game.drop 1 ++ [(⟨m.kind, stripMarker m.content⟩ : LogMessage)]) ∧
    (containsMarker m.content = false →
      s.messages_from_engine.length = s.max_messages → 0 < s.max_messages →
      (ingestOne s m).messages_from_engine = s.messages_from_engine.drop 1 ++ [m]) := by
  refine ⟨?_, ?_, ?_⟩
  · have h := ingestAll_bounded msgs s hb
    unfold ringsBounded at h
    rw [ingestAll_max msgs s] at h
    exact h
  · intro hc hfull hpos
    rw [ingestOne_of_contains s m hc]
    dsimp only
    rw [if_pos (by simp only [List.length_append, List.length_cons]; omega)]
    exact List.drop_append_of_le_length (by omega)
  · intro hc hfull hpos
    rw [ingestOne_of_not_contains s m hc]
    dsimp only
    rw [if_pos (by simp only [List.length_append, List.length_cons]; omega)]
    exact List.drop_append_of_le_length (by omega)

/-- State for the C5 witness: capacity 2, Engine ring already full. -/
def c5State : LogChildOsWindow :=
  { baseState with
    max_messages := 2
    messages_from_engine :=
      [⟨MessageKind.Information, ['2']⟩, ⟨MessageKind.Information, ['3']⟩] }

/-- Records for the C5 witness. -/
def c5Msgs : List LogMessage :=
  [⟨MessageKind.Information, ['a']⟩, ⟨MessageKind.Information, ['b']⟩,
   ⟨MessageKind.Information, ['c']⟩]

/-- The record appended to the full ring in the C5 witness. -/
def c5Msg : LogMessage := ⟨MessageKind.Information, ['4']⟩

/-- C5 witness: with capacity 2 and a full Engine ring, ingesting three more
unmarked records keeps both rings within 2 records, and a single append to the
full ring evicts the head: `[2, 3]` becomes `[3, 4]`. -/
theorem claim_C5_witness :
    (((ingestAll c5State c5Msgs).messages_from_game.length ≤ c5State.max_messages ∧
      (ingestAll c5State c5Msgs).messages_from_engine.length ≤ c5State.max_messages) ∧
     (containsMarker c5Msg.content = true →
       c5State.messages_from_game.length = c5State.max_messages →
       0 < c5State.max_messages →
       (ingestOne c5State c5Msg).messages_from_game =
         c5State.messages_from_game.drop 1 ++ [(⟨c5Msg.kind, stripMarker c5Msg.content⟩ : LogMessage)]) ∧
     (containsMarker c5Msg.content = false →
       c5State.messages_from_engine.length = c5State.max_messages →
       0 < c5State.max_messages →
       (ingestOne c5State c5Msg).messages_from_engine =
         c5State.messages_from_engine.drop 1 ++ [c5Msg])) ∧
    (ingestOne c5State c5Msg).messages_from_engine =
      [⟨MessageKind.Information, ['3']⟩, ⟨MessageKind.Information, ['4']⟩] := by
  have h := claim_C5 c5State c5Msgs c5Msg ⟨by decide, by decide⟩
  refine ⟨h, ?_⟩
  exact (h.2.2 (by decide) (by decide) (by decide)).trans (by decide)

/-! ## Claim C3: the Exit message is never handled, only surfaced fatally -/

theorem drainAuxMessages_eq_none (msgs : List Message) :
    drainAuxMessages msgs = none ↔ ∀ m ∈ msgs, m.isExit = false := by
  induction msgs with
  | nil => simp [drainAuxMessages]
  | cons m rest ih =>
    cases m with
    | Exit force => simp [drainAuxMessages, Message.isExit]
    | other => simpa [drainAuxMessages, Message.isExit] using ih

theorem drainAuxMessages_of_exit (msgs : List Message)
    (h : ∃ m ∈ msgs, m.isExit = true) :
    drainAuxMessages msgs = some exitFatalText := by
  induction msgs with
  | nil => simp at h
  | cons m rest ih =>
    cases m with
    | Exit force => rfl
    | other =>
      rw [drainAuxMessages]
      apply ih
      rcases h with ⟨m2, hm2, he⟩
      rcases List.mem_cons.mp hm2 with h1 | h1
      · rw [h1] at he
        simp [Message.isExit] at he
      · exact ⟨m2, h1, he⟩

/-- C3. The tick never handles an `Exit` from the auxiliary channel: the
auxiliary messages have no effect whatsoever on the window state or on whether
the model is re-derived, the tick completes without a fatal outcome iff no
`Exit` was queued, and when an `Exit` is queued the tick surfaces exactly the
fatal `Exit` propagation text and nothing is swallowed. -/
theorem claim_C3 (s : LogChildOsWindow) (logMsgs : List LogMessage)
    (uiMsgs : List UiMessage) (auxMsgs : List Message) :
    ((update s logMsgs uiMsgs auxMsgs).fatalMessage = none ↔
      ∀ m ∈ auxMsgs, m.isExit = false) ∧
    ((∃ m ∈ auxMsgs, m.isExit = true) →
      (update s logMsgs uiMsgs auxMsgs).fatalMessage = some exitFatalText) ∧
    (update s logMsgs uiMsgs auxMsgs).state = (update s logMsgs uiMsgs []).state ∧
    (update s logMsgs uiMsgs auxMsgs).model_updated =
      (update s logMsgs uiMsgs []).model_updated := by
  refine ⟨drainAuxMessages_eq_none auxMsgs, drainAuxMessages_of_exit auxMsgs, rfl, rfl⟩

/-- C3 witness: a tick with `[other, Exit, other]` queued surfaces the fatal
text, and a tick with only `other` messages surfaces nothing. -/
theorem claim_C3_witness :
    ((update baseState [] [] [Message.other, Message.Exit true, Message.other]).fatalMessage =
      some exitFatalText) ∧
    (update baseState [] [] [Message.other]).fatalMessage = none := by
  constructor
  · exact (claim_C3 baseState [] [] [Message.other, Message.Exit true, Message.other]).2.1
      ⟨Message.Exit true, by decide, by decide⟩
  · exact (claim_C3 baseState [] [] [Message.other]).1.mpr (by decide)

/-! ## Claim C10: an indeterminate checkbox payload acts as `Some(false)` -/

/-- C10. A `FromWidget` checkbox-change message with payload `Check(None)`
is handled exactly as one with payload `Check(Some(false))` — the whole
handler result coincides — and when such a message targets one of the five
filter checkboxes, the corresponding filter boolean is set to `false`. -/
theorem claim_C10 (s : LogChildOsWindow) (dest : Nat) :
    (handle_ui_message s ⟨dest, MessageDirection.FromWidget, UiMessageData.checkBoxCheck none⟩ =
      handle_ui_message s
        ⟨dest, MessageDirection.FromWidget, UiMessageData.checkBoxCheck (some false)⟩) ∧
    (dest = s.info_checkbox →
      (handle_ui_message s
        ⟨dest, MessageDirection.FromWidget,
          UiMessageData.checkBoxCheck none⟩).1.info_checked = false) ∧
    (dest = s.warning_checkbox →
      (handle_ui_message s
        ⟨dest, MessageDirection.FromWidget,
          UiMessageData.checkBoxCheck none⟩).1.warning_checked = false) ∧
    (dest = s.error_checkbox →
      (handle_ui_message s
        ⟨dest, MessageDirection.FromWidget,
          UiMessageData.checkBoxCheck none⟩).1.error_checked = false) ∧
    (dest = s.engine_checkbox →
      (handle_ui_message s
        ⟨dest, MessageDirection.FromWidget,
          UiMessageData.checkBoxCheck none⟩).1.engine_checked = false) ∧
    (dest = s.game_checkbox →
      (handle_ui_message s
        ⟨dest, MessageDirection.FromWidget,
          UiMessageData.checkBoxCheck none⟩).1.game_checked = false) := by
  refine ⟨?_, ?_, ?_, ?_, ?_, ?_⟩
  · simp [handle_ui_message, handle_check_changed]
  all_goals
    intro hd
    simp [handle_ui_message, handle_check_changed, hd]

/-- C10 witness: at the concrete base state, with the message targeting the
Info checkbox handle, `Check(None)` and `Check(Some(false))` coincide and the
Info filter ends up `false`. -/
theorem claim_C10_witness :
    (handle_ui_message baseState
        ⟨1, MessageDirection.FromWidget, UiMessageData.checkBoxCheck none⟩ =
      handle_ui_message baseState
        ⟨1, MessageDirection.FromWidget, UiMessageData.checkBoxCheck (some false)⟩) ∧
    (handle_ui_message baseState
        ⟨1, MessageDirection.FromWidget,
          UiMessageData.checkBoxCheck none⟩).1.info_checked = false := by
  have h := claim_C10 baseState 1
  exact ⟨h.1, h.2.1 (by decide)⟩

/-! ## Claim C9: what triggers a re-derivation -/

theorem handle_ui_message_flag (s : LogChildOsWindow) (m : UiMessage) :
    (handle_ui_message s m).2 = isCheckBoxMsg m := by
  cases h : m.data <;> simp [handle_ui_message, isCheckBoxMsg, h]

theorem handle_ui_message_other (s : LogChildOsWindow) (m : UiMessage)
    (h : isCheckBoxMsg m = false) : handle_ui_message s m = (s, false) := by
  cases hd : m.data with
  | checkBoxCheck v => simp [isCheckBoxMsg, hd] at h
  | other => simp [handle_ui_message, hd]

theorem poll_ui_messages_foldl_flag (msgs : List UiMessage) (s : LogChildOsWindow) (b : Bool) :
    (msgs.foldl (fun acc m =>
      let r := handle_ui_message acc.1 m
      (r.1, acc.2 || r.2)) (s, b)).2 = (b || msgs.any isCheckBoxMsg) := by
  induction msgs generalizing s b with
  | nil => simp
  | cons m rest ih =>
    simp only [List.foldl_cons, List.any_cons]
    rw [ih, handle_ui_message_flag, Bool.or_assoc]

theorem poll_ui_messages_flag (s : LogChildOsWindow) (msgs : List UiMessage) :
    (poll_ui_messages s msgs).2 = msgs.any isCheckBoxMsg := by
  rw [poll_ui_messages]
  rw [poll_ui_messages_foldl_flag msgs s false, Bool.false_or]

theorem poll_ui_messages_no_checkbox (msgs : List UiMessage) (s : LogChildOsWindow) (b : Bool)
    (h : ∀ m ∈ msgs, isCheckBoxMsg m = false) :
    (msgs.foldl (fun acc m =>
      let r := handle_ui_message acc.1 m
      (r.1, acc.2 || r.2)) (s, b)).1 = s := by
  induction msgs generalizing s b with
  | nil => rfl
  | cons m rest ih =>
    simp only [List.foldl_cons]
    rw [handle_ui_message_other s m (h m (List.mem_cons_self m rest))]
    exact ih s _ (fun m2 hm2 => h m2 (List.mem_cons_of_mem m hm2))

theorem ingestOne_filters (s : LogChildOsWindow) (m : LogMessage) :
    filterSnapshot (ingestOne s m) = filterSnapshot s := by
  by_cases hc : containsMarker m.content = true
  · rw [ingestOne_of_contains s m hc]
    rfl
  · rw [ingestOne_of_not_contains s m (by simpa using hc)]
    rfl

theorem ingestAll_filters (msgs : List LogMessage) (s : LogChildOsWindow) :
    filterSnapshot (ingestAll s msgs) = filterSnapshot s := by
  induction msgs generalizing s with
  | nil => rfl
  | cons m rest ih =>
    rw [ingestAll, List.foldl_cons, ← ingestAll, ih, ingestOne_filters]

theorem poll_ui_messages_state_no_checkbox (s : LogChildOsWindow) (msgs : List UiMessage)
    (h : ∀ m ∈ msgs, isCheckBoxMsg m = false) :
    (poll_ui_messages s msgs).1 = s := by
  rw [poll_ui_messages]
  exact poll_ui_messages_no_checkbox msgs s false h

theorem update_model_updated (s : LogChildOsWindow) (logMsgs : List LogMessage)
    (uiMsgs : List UiMessage) (auxMsgs : List Message) :
    (update s logMsgs uiMsgs auxMsgs).model_updated =
      (!logMsgs.isEmpty || (poll_ui_messages (ingestAll s logMsgs) uiMsgs).2) := rfl

theorem update_state_eq (s : LogChildOsWindow) (logMsgs : List LogMessage)
    (uiMsgs : List UiMessage) (auxMsgs : List Message) :
    (update s logMsgs uiMsgs auxMsgs).state =
      (if (!logMsgs.isEmpty || (poll_ui_messages (ingestAll s logMsgs) uiMsgs).2) = true
       then update_log_message_model (poll_ui_messages (ingestAll s logMsgs) uiMsgs).1
       else (poll_ui_messages (ingestAll s logMsgs) uiMsgs).1) := rfl

/-- C9 (amended). On every tick, the deriver and render adapter run iff at
least one record was ingested or at least one polled UI message carried a
`CheckBoxMessage` payload — whether or not that message actually changed any
filter boolean. In particular every filter-state change still triggers a
re-derivation on that tick (second conjunct); but a `CheckBoxMessage` that
changes nothing (wrong direction, wrong destination, or re-asserting the
current value) also triggers one, so "no ingestion and no filter-state change"
does not imply "no view work". -/
theorem claim_C9_amended (s : LogChildOsWindow) (logMsgs : List LogMessage)
    (uiMsgs : List UiMessage) (auxMsgs : List Message) :
    ((update s logMsgs uiMsgs auxMsgs).model_updated = true ↔
      (logMsgs ≠ [] ∨ ∃ u ∈ uiMsgs, isCheckBoxMsg u = true)) ∧
    (filterSnapshot (update s logMsgs uiMsgs auxMsgs).state ≠ filterSnapshot s →
      (update s logMsgs uiMsgs auxMsgs).model_updated = true) := by
  constructor
  · rw [update_model_updated, poll_ui_messages_flag]
    simp [List.isEmpty_iff, List.any_eq_true]
  · intro hne
    by_contra hfalse
    apply hne
    have hb : (update s logMsgs uiMsgs auxMsgs).model_updated = false := by
      cases h : (update s logMsgs uiMsgs auxMsgs).model_updated
      · rfl
      · exact absurd h hfalse
    rw [update_model_updated, Bool.or_eq_false_iff] at hb
    obtain ⟨hlog, hpoll⟩ := hb
    have hmem := (List.any_eq_false).mp ((poll_ui_messages_flag _ uiMsgs) ▸ hpoll)
    simp only [Bool.not_eq_true] at hmem
    rw [update_state_eq, if_neg (by rw [hlog, hpoll]; simp)]
    rw [poll_ui_messages_state_no_checkbox _ uiMsgs hmem, ingestAll_filters]

/-- A checkbox message that cannot change any filter: its direction is
`ToWidget` and its destination (99) is none of the five checkbox handles. -/
def spuriousCheckBoxMsg : UiMessage :=
  ⟨99, MessageDirection.ToWidget, UiMessageData.checkBoxCheck (some true)⟩

/-- C9 counterexample: a tick that ingests no record and whose only UI message
is a `CheckBoxMessage` with direction `ToWidget` aimed at a non-checkbox
destination leaves the filter state unchanged — yet the view is re-derived.
The claim says a tick with no ingested records and no filter-state change
performs no view re-derivation, which is false here. -/
theorem claim_C9_counterexample :
    (update baseState [] [spuriousCheckBoxMsg] []).model_updated = true ∧
    filterSnapshot (update baseState [] [spuriousCheckBoxMsg] []).state =
      filterSnapshot baseState ∧
    (update baseState [] [spuriousCheckBoxMsg] []).state.messages_from_game = [] ∧
    (update baseState [] [spuriousCheckBoxMsg] []).state.messages_from_engine = [] := by
  decide

/-- C9 witness: the amended trigger condition, instantiated — this tick (one
spurious checkbox message, nothing ingested) re-derives the view, and a
wholly empty tick does not. -/
theorem claim_C9_amended_witness :
    ((update baseState [] [spuriousCheckBoxMsg] []).model_updated = true ↔
      (([] : List LogMessage) ≠ [] ∨
        ∃ u ∈ [spuriousCheckBoxMsg], isCheckBoxMsg u = true)) ∧
    ((update baseState [] [] []).model_updated = true ↔
      (([] : List LogMessage) ≠ [] ∨ ∃ u ∈ ([] : List UiMessage), isCheckBoxMsg u = true)) := by
  exact ⟨(claim_C9_amended baseState [] [spuriousCheckBoxMsg] []).1,
    (claim_C9_amended baseState [] [] []).1⟩

/-! ## Claim C8: the deriver is a pure, deterministic function -/

theorem kindRejected_congr (s1 s2 : LogChildOsWindow)
    (h : filterSnapshot s1 = filterSnapshot s2) : kindRejected s1 = kindRejected s2 := by
  simp only [filterSnapshot, Prod.mk.injEq] at h
  funext m
  rw [kindRejected, kindRejected, h.1, h.2.1, h.2.2.1]

theorem processRing_congr (s1 s2 : LogChildOsWindow)
    (h : kindRejected s1 = kindRejected s2) :
    ∀ (msgs : List LogMessage) (acc : List (MsgKey × Nat) × List MsgKey),
      processRing s1 msgs acc = processRing s2 msgs acc := by
  intro msgs
  induction msgs with
  | nil => intro acc; rfl
  | cons m rest ih =>
    intro acc
    obtain ⟨visited, foldedRev⟩ := acc
    rw [processRing, processRing, h]
    split
    · exact ih _
    · cases lookupCount visited (keyOf m) <;> dsimp only <;> exact ih _

theorem derivedView_congr (s1 s2 : LogChildOsWindow)
    (hg : s1.messages_from_game = s2.messages_from_game)
    (he : s1.messages_from_engine = s2.messages_from_engine)
    (hf : filterSnapshot s1 = filterSnapshot s2) :
    derivedView s1 = derivedView s2 := by
  have hk := kindRejected_congr s1 s2 hf
  simp only [filterSnapshot, Prod.mk.injEq] at hf
  rw [derivedView, derivedView, foldRings, foldRings, hg, he,
    hf.2.2.2.1, hf.2.2.2.2, processRing_congr s1 s2 hk, processRing_congr s1 s2 hk]

/-- C8. The view derivation is a pure, deterministic function of the
`(rings, filter)` snapshot: any two states that agree on the two rings and the
five filter booleans derive the same view model and render the same children
(whatever their capacities, handles, or current children), and running the
deriver mutates neither the rings, nor the filter state, nor the capacity. -/
theorem claim_C8 (s1 s2 : LogChildOsWindow)
    (hg : s1.messages_from_game = s2.messages_from_game)
    (he : s1.messages_from_engine = s2.messages_from_engine)
    (hf : filterSnapshot s1 = filterSnapshot s2) :
    (derivedView s1 = derivedView s2 ∧
     (update_log_message_model s1).log_stack_children =
       (update_log_message_model s2).log_stack_children) ∧
    (update_log_message_model s1).messages_from_game = s1.messages_from_game ∧
    (update_log_message_model s1).messages_from_engine = s1.messages_from_engine ∧
    filterSnapshot (update_log_message_model s1) = filterSnapshot s1 ∧
    (update_log_message_model s1).max_messages = s1.max_messages := by
  have hv := derivedView_congr s1 s2 hg he hf
  exact ⟨⟨hv, by rw [update_log_message_model, update_log_message_model, hv]⟩,
    rfl, rfl, rfl, rfl⟩

/-- A state agreeing with `baseState` on rings and filters but differing in
capacity, handle ids, and current children. -/
def c8State : LogChildOsWindow :=
  { baseState with
    max_messages := 7
    info_checkbox := 41
    warning_checkbox := 42
    error_checkbox := 43
    engine_checkbox := 44
    game_checkbox := 45
    log_stack_children := [⟨['o', 'l', 'd'], Brush.information, Brush.light⟩] }

/-- C8 witness: `baseState` and `c8State` agree on rings and filters, hence
derive identical views and render identical children; and the deriver leaves
the core state of `baseState` untouched. -/
theorem claim_C8_witness :
    (derivedView baseState = derivedView c8State ∧
     (update_log_message_model baseState).log_stack_children =
       (update_log_message_model c8State).log_stack_children) ∧
    (update_log_message_model baseState).messages_from_game =
      baseState.messages_from_game ∧
    (update_log_message_model baseState).messages_from_engine =
      baseState.messages_from_engine ∧
    filterSnapshot (update_log_message_model baseState) = filterSnapshot baseState ∧
    (update_log_message_model baseState).max_messages = baseState.max_messages :=
  claim_C8 baseState c8State (by decide) (by decide) (by decide)

/-! ## The fold characterised over the key stream -/

/-- The fold loop restricted to the key stream (records already gate-filtered
and mapped to their fold keys); `processRing` factors through it. -/
def processKeys :
    List MsgKey → List (MsgKey × Nat) × List MsgKey → List (MsgKey × Nat) × List MsgKey
  | [], acc => acc
  | k :: rest, (visited, foldedRev) =>
    match lookupCount visited k with
    | some _ => processKeys rest (bumpCount visited k, foldedRev)
    | none => processKeys rest (visited ++ [(k, 1)], foldedRev ++ [k])

theorem processRing_eq_processKeys (s : LogChildOsWindow) (msgs : List LogMessage) :
    ∀ acc, processRing s msgs acc =
      processKeys ((msgs.filter (fun m => !kindRejected s m)).map keyOf) acc := by
  induction msgs with
  | nil => intro acc; rfl
  | cons m rest ih =>
    intro acc
    obtain ⟨visited, foldedRev⟩ := acc
    cases hr : kindRejected s m with
    | true =>
      rw [processRing, if_pos hr]
      have hf : List.filter (fun m => !kindRejected s m) (m :: rest) =
          List.filter (fun m => !kindRejected s m) rest := by
        simp [List.filter_cons, hr]
      rw [hf]
      exact ih _
    | false =>
      rw [processRing, if_neg (by rw [hr]; exact Bool.false_ne_true)]
      have hf : List.filter (fun m => !kindRejected s m) (m :: rest) =
          m :: List.filter (fun m => !kindRejected s m) rest := by
        simp [List.filter_cons, hr]
      rw [hf, List.map_cons, processKeys]
      cases lookupCount visited (keyOf m) <;> dsimp only <;> exact ih _

theorem processKeys_append (l1 l2 : List MsgKey) :
    ∀ acc, processKeys (l1 ++ l2) acc = processKeys l2 (processKeys l1 acc) := by
  induction l1 with
  | nil => intro acc; rfl
  | cons k rest ih =>
    intro acc
    obtain ⟨v, f⟩ := acc
    rw [List.cons_append, processKeys, processKeys]
    cases lookupCount v k <;> dsimp only <;> exact ih _

theorem admissibleTraversal_eq (s : LogChildOsWindow) :
    admissibleTraversal s =
      (if s.game_checked
        then s.messages_from_game.reverse.filter (fun m => !kindRejected s m) else []) ++
      (if s.engine_checked
        then s.messages_from_engine.reverse.filter (fun m => !kindRejected s m) else []) := by
  rw [admissibleTraversal, traversalMsgs, List.filter_append]
  cases s.game_checked <;> cases s.engine_checked <;> simp

theorem foldRings_eq (s : LogChildOsWindow) :
    foldRings s = processKeys (admKeys s) ([], []) := by
  rw [foldRings, admKeys, admissibleTraversal_eq]
  cases hg : s.game_checked <;> cases he : s.engine_checked <;>
    simp [processRing_eq_processKeys, processKeys_append, List.map_append] <;> rfl

/-! ## Association-list lemmas for `visited_messages` -/

theorem lookupCount_isSome_iff (v : List (MsgKey × Nat)) (k : MsgKey) :
    (lookupCount v k).isSome = true ↔ k ∈ v.map Prod.fst := by
  induction v with
  | nil => simp [lookupCount]
  | cons p rest ih =>
    obtain ⟨k2, n⟩ := p
    by_cases h : k2 = k
    · subst h
      simp [lookupCount]
    · simp only [lookupCount, if_neg h, List.map_cons, List.mem_cons]
      rw [ih]
      constructor
      · exact fun hm => Or.inr hm
      · rintro (hm | hm)
        · exact absurd hm.symm h
        · exact hm

theorem lookupCount_eq_none_iff (v : List (MsgKey × Nat)) (k : MsgKey) :
    lookupCount v k = none ↔ k ∉ v.map Prod.fst := by
  rw [← lookupCount_isSome_iff]
  cases lookupCount v k <;> simp

theorem bumpCount_map_fst (v : List (MsgKey × Nat)) (k : MsgKey) :
    (bumpCount v k).map Prod.fst = v.map Prod.fst := by
  rw [bumpCount, List.map_map]
  apply List.map_congr_left
  intro p _
  by_cases h : p.1 = k <;> simp [h]

theorem lookupCount_bump (v : List (MsgKey × Nat)) (k k2 : MsgKey) :
    lookupCount (bumpCount v k) k2 =
      if k2 = k then (lookupCount v k2).map (fun n => n + 1) else lookupCount v k2 := by
  induction v with
  | nil =>
    by_cases h : k2 = k <;> simp [bumpCount, lookupCount, h]
  | cons p rest ih =>
    obtain ⟨kp, n⟩ := p
    by_cases h1 : kp = k
    · subst h1
      have hb : bumpCount ((kp, n) :: rest) kp = (kp, n + 1) :: bumpCount rest kp := by
        simp [bumpCount]
      rw [hb]
      by_cases h2 : kp = k2
      · subst h2
        simp [lookupCount]
      · simp [lookupCount, h2, ih]
    · have hb : bumpCount ((kp, n) :: rest) k = (kp, n) :: bumpCount rest k := by
        simp [bumpCount, h1]
      rw [hb]
      by_cases h2 : kp = k2
      · subst h2
        simp [lookupCount, h1]
      · simp [lookupCount, h2, ih]

theorem lookupCount_append_of_some (v : List (MsgKey × Nat)) (k k2 : MsgKey) (n : Nat)
    (h : lookupCount v k2 = some n) :
    lookupCount (v ++ [(k, 1)]) k2 = some n := by
  induction v with
  | nil => simp [lookupCount] at h
  | cons p rest ih =>
    obtain ⟨kp, m⟩ := p
    rw [lookupCount] at h
    rw [List.cons_append, lookupCount]
    by_cases hk : kp = k2
    · rw [if_pos hk] at h ⊢
      exact h
    · rw [if_neg hk] at h ⊢
      exact ih h

theorem lookupCount_append_of_none (v : List (MsgKey × Nat)) (k k2 : MsgKey)
    (h : lookupCount v k2 = none) :
    lookupCount (v ++ [(k, 1)]) k2 = if k = k2 then some 1 else none := by
  induction v with
  | nil =>
    rw [List.nil_append, lookupCount]
    by_cases hk : k = k2 <;> simp [hk, lookupCount]
  | cons p rest ih =>
    obtain ⟨kp, m⟩ := p
    rw [lookupCount] at h
    rw [List.cons_append, lookupCount]
    by_cases hk : kp = k2
    · rw [if_pos hk] at h
      exact absurd h (by simp)
    · rw [if_neg hk] at h ⊢
      exact ih h

/-! ## First-occurrence de-duplication -/

theorem mem_foldedKeys (l : List MsgKey) :
    ∀ (seen : List MsgKey) (k : MsgKey),
      k ∈ foldedKeys seen l ↔ (k ∈ l ∧ k ∉ seen) := by
  induction l with
  | nil => intro seen k; simp [foldedKeys]
  | cons k2 rest ih =>
    intro seen k
    rw [foldedKeys]
    by_cases hs : k2 ∈ seen
    · rw [if_pos hs, ih]
      constructor
      · exact fun ⟨h1, h2⟩ => ⟨List.mem_cons_of_mem k2 h1, h2⟩
      · rintro ⟨h1, h2⟩
        rcases List.mem_cons.mp h1 with h3 | h3
        · exact absurd (h3 ▸ hs) h2
        · exact ⟨h3, h2⟩
    · rw [if_neg hs]
      simp only [List.mem_cons, ih, List.mem_cons]
      by_cases hk : k = k2 <;> simp [hk, hs]

theorem nodup_foldedKeys (l : List MsgKey) :
    ∀ seen : List MsgKey, (foldedKeys seen l).Nodup := by
  induction l with
  | nil => intro seen; simp [foldedKeys]
  | cons k rest ih =>
    intro seen
    rw [foldedKeys]
    by_cases hs : k ∈ seen
    · rw [if_pos hs]
      exact ih seen
    · rw [if_neg hs]
      refine List.nodup_cons.mpr ⟨?_, ih (k :: seen)⟩
      intro hc
      exact ((mem_foldedKeys rest (k :: seen) k).mp hc).2 (List.mem_cons_self k seen)

theorem foldedKeys_congr (l : List MsgKey) :
    ∀ seen1 seen2 : List MsgKey, (∀ k, k ∈ seen1 ↔ k ∈ seen2) →
      foldedKeys seen1 l = foldedKeys seen2 l := by
  induction l with
  | nil => intro seen1 seen2 h; rfl
  | cons k rest ih =>
    intro seen1 seen2 h
    rw [foldedKeys, foldedKeys]
    by_cases hs : k ∈ seen1
    · rw [if_pos hs, if_pos ((h k).mp hs)]
      exact ih seen1 seen2 h
    · rw [if_neg hs, if_neg (fun hc => hs ((h k).mpr hc))]
      refine congrArg (k :: ·) (ih (k :: seen1) (k :: seen2) ?_)
      intro k2
      simp only [List.mem_cons]
      rw [h k2]

/-! ## Counting occurrences of a key -/

theorem countKey_nil (k : MsgKey) : countKey k [] = 0 := rfl

theorem countKey_cons (k k2 : MsgKey) (l : List MsgKey) :
    countKey k (k2 :: l) = (if k2 = k then 1 else 0) + countKey k l := rfl

theorem countKey_append (k : MsgKey) (l1 l2 : List MsgKey) :
    countKey k (l1 ++ l2) = countKey k l1 + countKey k l2 := by
  induction l1 with
  | nil => simp [countKey]
  | cons k2 rest ih =>
    rw [List.cons_append, countKey_cons, countKey_cons, ih, Nat.add_assoc]

theorem countKey_reverse (k : MsgKey) (l : List MsgKey) :
    countKey k l.reverse = countKey k l := by
  induction l with
  | nil => rfl
  | cons k2 rest ih =>
    rw [List.reverse_cons, countKey_append, countKey_cons, ih, countKey_cons, countKey_nil]
    omega

theorem countKey_eq_zero_iff (k : MsgKey) (l : List MsgKey) :
    countKey k l = 0 ↔ k ∉ l := by
  induction l with
  | nil => simp [countKey]
  | cons k2 rest ih =>
    rw [countKey_cons]
    by_cases h : k2 = k
    · subst h
      simp
    · have hne : ¬(k = k2) := fun hc => h hc.symm
      simp [h, ih, hne]

theorem countKey_map_keyOf (k : MsgKey) (ring : List LogMessage) (s : LogChildOsWindow)
    (hk : kindRejected s ⟨k.1, k.2⟩ = false) :
    countKey k ((ring.filter (fun m => !kindRejected s m)).map keyOf) =
      countKey k (ring.map keyOf) := by
  induction ring with
  | nil => rfl
  | cons m rest ih =>
    by_cases hr : kindRejected s m = true
    · have hf : List.filter (fun m => !kindRejected s m) (m :: rest) =
          List.filter (fun m => !kindRejected s m) rest := by
        simp [List.filter_cons, hr]
      rw [hf, List.map_cons, countKey_cons, ih]
      have hne : keyOf m ≠ k := by
        intro hc
        have hm : m = ⟨k.1, k.2⟩ := by
          have h1 : m.kind = k.1 := by rw [← hc]; rfl
          have h2 : m.content = k.2 := by rw [← hc]; rfl
          cases m
          simp only at h1 h2
          rw [h1, h2]
        rw [hm] at hr
        rw [hk] at hr
        exact Bool.false_ne_true hr
      rw [if_neg hne, Nat.zero_add]
    · have hr2 : kindRejected s m = false := by
        cases h2 : kindRejected s m
        · rfl
        · exact absurd h2 hr
      have hf : List.filter (fun m => !kindRejected s m) (m :: rest) =
          m :: List.filter (fun m => !kindRejected s m) rest := by
        simp [List.filter_cons, hr2]
      rw [hf, List.map_cons, List.map_cons, countKey_cons, countKey_cons, ih]

/-! ## The two components of the fold result -/

theorem processKeys_snd (l : List MsgKey) :
    ∀ (v : List (MsgKey × Nat)) (f : List MsgKey),
      (processKeys l (v, f)).2 = f ++ foldedKeys (v.map Prod.fst) l := by
  induction l with
  | nil => intro v f; simp [processKeys, foldedKeys]
  | cons k rest ih =>
    intro v f
    rw [processKeys]
    cases hl : lookupCount v k with
    | some n =>
      dsimp only
      rw [ih]
      have hk : k ∈ v.map Prod.fst := by
        rw [← lookupCount_isSome_iff, hl]
        rfl
      rw [foldedKeys, if_pos hk, bumpCount_map_fst]
    | none =>
      dsimp only
      rw [ih]
      have hk : k ∉ v.map Prod.fst := (lookupCount_eq_none_iff v k).mp hl
      rw [foldedKeys, if_neg hk]
      have hmap : (v ++ [(k, 1)]).map Prod.fst = v.map Prod.fst ++ [k] := by
        simp
      rw [hmap]
      rw [foldedKeys_congr rest (v.map Prod.fst ++ [k]) (k :: v.map Prod.fst)
        (by intro k2; simp [or_comm])]
      simp

/-- The count an option evolves to after processing `c` further occurrences. -/
def lookupAfter (o : Option Nat) (c : Nat) : Option Nat :=
  match o with
  | some n => some (n + c)
  | none => if c = 0 then none else some c

theorem processKeys_lookup (l : List MsgKey) :
    ∀ (v : List (MsgKey × Nat)) (f : List MsgKey) (k : MsgKey),
      lookupCount (processKeys l (v, f)).1 k =
        lookupAfter (lookupCount v k) (countKey k l) := by
  induction l with
  | nil =>
    intro v f k
    cases h : lookupCount v k <;> simp [processKeys, countKey, lookupAfter, h]
  | cons k2 rest ih =>
    intro v f k
    rw [processKeys]
    cases hl : lookupCount v k2 with
    | some n2 =>
      dsimp only
      rw [ih, lookupCount_bump]
      by_cases hk : k = k2
      · subst hk
        rw [if_pos rfl, hl, countKey_cons, if_pos rfl]
        show some (n2 + 1 + countKey k rest) = some (n2 + (1 + countKey k rest))
        congr 1
        omega
      · rw [if_neg hk, countKey_cons, if_neg (fun hc : k2 = k => hk hc.symm), Nat.zero_add]
    | none =>
      dsimp only
      rw [ih]
      by_cases hk : k = k2
      · subst hk
        rw [lookupCount_append_of_none v k k hl, if_pos rfl, hl,
          countKey_cons, if_pos rfl]
        show some (1 + countKey k rest) =
          if (1 + countKey k rest) = 0 then none else some (1 + countKey k rest)
        rw [if_neg (by omega : ¬((1 + countKey k rest) = 0))]
      · rw [countKey_cons, if_neg (fun hc : k2 = k => hk hc.symm), Nat.zero_add]
        cases hv : lookupCount v k with
        | some n => rw [lookupCount_append_of_some v k2 k n hv]
        | none =>
          rw [lookupCount_append_of_none v k2 k hv,
            if_neg (fun hc : k2 = k => hk hc.symm)]

/-! ## Closed form of the derived view -/

theorem derivedView_eq (s : LogChildOsWindow) :
    derivedView s = (foldedKeys [] (admKeys s)).reverse.map
      (fun k => ⟨k.1, k.2, countKey k (admKeys s)⟩) := by
  simp only [derivedView, foldRings_eq]
  have h2 : (processKeys (admKeys s) ([], [])).2 = foldedKeys [] (admKeys s) := by
    rw [processKeys_snd]
    rfl
  rw [h2]
  apply List.map_congr_left
  intro k hk
  have hkmem : k ∈ admKeys s := by
    rw [List.mem_reverse] at hk
    exact ((mem_foldedKeys _ _ _).mp hk).1
  have hc : ¬(countKey k (admKeys s) = 0) :=
    fun hz => ((countKey_eq_zero_iff _ _).mp hz) hkmem
  have hl : lookupCount (processKeys (admKeys s) ([], [])).1 k =
      some (countKey k (admKeys s)) := by
    rw [processKeys_lookup]
    show lookupAfter none (countKey k (admKeys s)) = _
    rw [lookupAfter, if_neg hc]
  rw [hl]
  rfl

theorem viewKeys_eq (s : LogChildOsWindow) :
    viewKeys s = (foldedKeys [] (admKeys s)).reverse := by
  rw [viewKeys, derivedView_eq, List.map_map]
  conv_rhs => rw [← List.map_id ((foldedKeys [] (admKeys s)).reverse)]
  apply List.map_congr_left
  intro k _
  rfl

/-! ## Claim C4: fold soundness -/

/-- Number of elements of a key list whose key is not in `seen`. -/
def countNotSeen (seen : List MsgKey) : List MsgKey → Nat
  | [] => 0
  | k :: rest => (if k ∈ seen then 0 else 1) + countNotSeen seen rest

theorem countNotSeen_nil_seen (l : List MsgKey) : countNotSeen [] l = l.length := by
  induction l with
  | nil => rfl
  | cons k rest ih =>
    rw [countNotSeen, if_neg (List.not_mem_nil k), ih, List.length_cons]
    omega

theorem countKey_add_countNotSeen (k : MsgKey) (seen : List MsgKey) (l : List MsgKey)
    (hk : k ∉ seen) :
    countKey k l + countNotSeen (k :: seen) l = countNotSeen seen l := by
  induction l with
  | nil => rfl
  | cons x rest ih =>
    simp only [countKey_cons, countNotSeen]
    by_cases hx : x = k
    · subst hx
      rw [if_pos rfl, if_pos (List.mem_cons_self x seen), if_neg hk]
      omega
    · rw [if_neg hx]
      have hiff : (x ∈ k :: seen) ↔ (x ∈ seen) := by
        simp [List.mem_cons, hx]
      by_cases hxs : x ∈ seen
      · rw [if_pos (hiff.mpr hxs), if_pos hxs]
        omega
      · rw [if_neg (fun hc => hxs (hiff.mp hc)), if_neg hxs]
        omega

theorem sum_foldedKeys (l : List MsgKey) :
    ∀ seen, ((foldedKeys seen l).map (fun k => countKey k l)).sum = countNotSeen seen l := by
  induction l with
  | nil => intro seen; rfl
  | cons k rest ih =>
    intro seen
    rw [foldedKeys]
    by_cases hs : k ∈ seen
    · rw [if_pos hs]
      have hmap : (foldedKeys seen rest).map (fun j => countKey j (k :: rest)) =
          (foldedKeys seen rest).map (fun j => countKey j rest) := by
        apply List.map_congr_left
        intro j hj
        have hj2 := (mem_foldedKeys rest seen j).mp hj
        have hjk : ¬(k = j) := fun hc => hj2.2 (hc ▸ hs)
        rw [countKey_cons, if_neg hjk, Nat.zero_add]
      rw [hmap, ih seen, countNotSeen, if_pos hs, Nat.zero_add]
    · rw [if_neg hs, List.map_cons, List.sum_cons]
      have hmap : (foldedKeys (k :: seen) rest).map (fun j => countKey j (k :: rest)) =
          (foldedKeys (k :: seen) rest).map (fun j => countKey j rest) := by
        apply List.map_congr_left
        intro j hj
        have hj2 := (mem_foldedKeys rest (k :: seen) j).mp hj
        have hjk : ¬(k = j) := fun hc => hj2.2 (hc ▸ List.mem_cons_self k seen)
        rw [countKey_cons, if_neg hjk, Nat.zero_add]
      rw [hmap, ih (k :: seen), countKey_cons, if_pos rfl, countNotSeen, if_neg hs]
      have hrec := countKey_add_countNotSeen k seen rest hs
      omega

theorem sumCounts_derivedView (s : LogChildOsWindow) :
    sumCounts (derivedView s) = (admKeys s).length := by
  rw [derivedView_eq, sumCounts, List.map_map]
  have hcomp : ((foldedKeys [] (admKeys s)).reverse.map
      ((fun it : ViewItem => it.count) ∘ (fun k : MsgKey => ⟨k.1, k.2, countKey k (admKeys s)⟩))) =
      (foldedKeys [] (admKeys s)).reverse.map (fun k => countKey k (admKeys s)) := rfl
  rw [hcomp, List.map_reverse, List.sum_reverse, sum_foldedKeys (admKeys s) [],
    countNotSeen_nil_seen]

theorem length_admKeys (s : LogChildOsWindow) :
    (admKeys s).length = admissibleCount s := by
  rw [admKeys, List.length_map, admissibleTraversal_eq, List.length_append, admissibleCount]
  cases hg : s.game_checked <;> cases he : s.engine_checked <;>
    simp [List.filter_reverse, Nat.add_comm]

/-- C4. For every state (ring contents and filter snapshot): the sum of
`count` over the emitted view items equals the number of records admitted by
both gates, counted per ring; the keys of the view are pairwise distinct, and
the key of every admissible record is the key of some view item — so every admissible
record is counted in exactly one view item. -/
theorem claim_C4 (s : LogChildOsWindow) :
    sumCounts (derivedView s) = admissibleCount s ∧
    (viewKeys s).Nodup ∧
    ∀ m ∈ admissibleTraversal s, keyOf m ∈ viewKeys s := by
  refine ⟨?_, ?_, ?_⟩
  · rw [sumCounts_derivedView, length_admKeys]
  · rw [viewKeys_eq]
    exact List.nodup_reverse.mpr (nodup_foldedKeys _ _)
  · intro m hm
    rw [viewKeys_eq, List.mem_reverse, mem_foldedKeys]
    refine ⟨?_, by simp⟩
    rw [admKeys]
    exact List.mem_map_of_mem keyOf hm

/-- State for the C4 witness: Warning filtered out, a duplicated Engine record,
one Game record. -/
def c4State : LogChildOsWindow :=
  { baseState with
    warning_checked := false
    messages_from_engine :=
      [⟨MessageKind.Information, ['a']⟩, ⟨MessageKind.Warning, ['w']⟩,
       ⟨MessageKind.Information, ['a']⟩]
    messages_from_game := [⟨MessageKind.Error, ['g']⟩] }

/-- C4 witness: the fold soundness instance at `c4State`, where the three
admissible records (the Warning one is gated out) fold into counts summing
to 3. -/
theorem claim_C4_witness :
    (sumCounts (derivedView c4State) = admissibleCount c4State ∧
     (viewKeys c4State).Nodup ∧
     ∀ m ∈ admissibleTraversal c4State, keyOf m ∈ viewKeys c4State) ∧
    sumCounts (derivedView c4State) = 3 ∧ admissibleCount c4State = 3 :=
  ⟨claim_C4 c4State, by decide, by decide⟩

/-! ## Claim C6: the filter gates -/

theorem kindRejected_eq (s : LogChildOsWindow) (m : LogMessage) :
    kindRejected s m = !kindGate s m.kind := by
  cases hk : m.kind <;>
    simp only [kindRejected, kindGate, hk] <;>
    cases s.info_checked <;> cases s.warning_checked <;> cases s.error_checked <;> rfl

/-- C6. The kind of every emitted view item passes the kind gate of the filter
snapshot, and a record is admitted to the fold iff its kind gate is true AND it
sits in a ring whose source gate is true. -/
theorem claim_C6 (s : LogChildOsWindow) :
    (∀ it ∈ derivedView s, kindGate s it.kind = true) ∧
    (∀ m : LogMessage, m ∈ admissibleTraversal s ↔
      (kindGate s m.kind = true ∧
        ((s.game_checked = true ∧ m ∈ s.messages_from_game) ∨
         (s.engine_checked = true ∧ m ∈ s.messages_from_engine)))) := by
  constructor
  · intro it hit
    rw [derivedView_eq] at hit
    rcases List.mem_map.mp hit with ⟨k, hk, hkeq⟩
    rw [List.mem_reverse] at hk
    have hkadm : k ∈ admKeys s := ((mem_foldedKeys _ _ _).mp hk).1
    rw [admKeys] at hkadm
    rcases List.mem_map.mp hkadm with ⟨m, hm, hmeq⟩
    rw [admissibleTraversal] at hm
    have hmk := List.mem_filter.mp hm
    have hgate : kindGate s m.kind = true := by
      have hpred := hmk.2
      rw [kindRejected_eq] at hpred
      simpa using hpred
    have hkind : it.kind = m.kind := by
      rw [← hkeq, ← hmeq]
      rfl
    rw [hkind]
    exact hgate
  · intro m
    rw [admissibleTraversal, List.mem_filter, traversalMsgs, List.mem_append]
    have hpred : (((fun m => !kindRejected s m) m) = true) ↔ kindGate s m.kind = true := by
      show ((!kindRejected s m) = true) ↔ _
      rw [kindRejected_eq]
      cases kindGate s m.kind <;> simp
    rw [hpred]
    cases hg : s.game_checked <;> cases he : s.engine_checked <;>
      simp [List.mem_reverse] <;> tauto

/-- State for the C6 witness: Info gated out, Game source gated out. -/
def c6State : LogChildOsWindow :=
  { baseState with
    info_checked := false
    game_checked := false
    messages_from_engine :=
      [⟨MessageKind.Information, ['i']⟩, ⟨MessageKind.Error, ['e']⟩]
    messages_from_game := [⟨MessageKind.Error, ['g']⟩] }

/-- C6 witness: the gate instance at `c6State`, together with the concrete
checks that the Error engine record is admitted while the Info record and the
gated-out Game record are not. -/
theorem claim_C6_witness :
    ((∀ it ∈ derivedView c6State, kindGate c6State it.kind = true) ∧
     (∀ m : LogMessage, m ∈ admissibleTraversal c6State ↔
       (kindGate c6State m.kind = true ∧
         ((c6State.game_checked = true ∧ m ∈ c6State.messages_from_game) ∨
          (c6State.engine_checked = true ∧ m ∈ c6State.messages_from_engine))))) ∧
    admissibleTraversal c6State = [⟨MessageKind.Error, ['e']⟩] ∧
    viewKeys c6State = [(MessageKind.Error, ['e'])] :=
  ⟨claim_C6 c6State, by decide, by decide⟩

/-! ## Claim C7: cross-source folding -/

theorem countKey_eq_one_of_nodup (k : MsgKey) (l : List MsgKey)
    (hn : l.Nodup) (hm : k ∈ l) : countKey k l = 1 := by
  induction l with
  | nil => simp at hm
  | cons k2 rest ih =>
    rw [countKey_cons]
    rcases List.mem_cons.mp hm with h | h
    · subst h
      rw [if_pos rfl, (countKey_eq_zero_iff k rest).mpr (List.nodup_cons.mp hn).1]
    · have hne : ¬(k2 = k) := fun hc => (List.nodup_cons.mp hn).1 (hc ▸ h)
      rw [if_neg hne, Nat.zero_add]
      exact ih (List.nodup_cons.mp hn).2 h

theorem countKey_admKeys (s : LogChildOsWindow) (k : MsgKey)
    (hg : s.game_checked = true) (he : s.engine_checked = true)
    (hkr : kindRejected s ⟨k.1, k.2⟩ = false) :
    countKey k (admKeys s) =
      countKey k (s.messages_from_game.map keyOf) +
        countKey k (s.messages_from_engine.map keyOf) := by
  rw [admKeys, admissibleTraversal_eq, hg, he, if_pos rfl, if_pos rfl,
    List.map_append, countKey_append]
  congr 1 <;>
    rw [List.filter_reverse, List.map_reverse, countKey_reverse, countKey_map_keyOf k _ s hkr]

/-- C7. When both source gates are on and the kind gate admits `k.1`, a key
`k` present in both rings yields exactly one view item, and every view item
carrying `k` counts the total occurrences of `k` across both rings. -/
theorem claim_C7 (s : LogChildOsWindow) (k : MsgKey)
    (hg : s.game_checked = true) (he : s.engine_checked = true)
    (hk : kindGate s k.1 = true)
    (h1 : k ∈ s.messages_from_game.map keyOf)
    (h2 : k ∈ s.messages_from_engine.map keyOf) :
    countKey k (viewKeys s) = 1 ∧
    (∀ it ∈ derivedView s, (it.kind, it.content) = k →
      it.count = countKey k (s.messages_from_game.map keyOf) +
        countKey k (s.messages_from_engine.map keyOf)) := by
  have hkr : kindRejected s ⟨k.1, k.2⟩ = false := by
    rw [kindRejected_eq]
    show (!kindGate s k.1) = false
    rw [hk]
    rfl
  have hkadm : k ∈ admKeys s := by
    rcases List.mem_map.mp h1 with ⟨m, hm, hmeq⟩
    rw [admKeys, ← hmeq]
    refine List.mem_map_of_mem keyOf ?_
    rw [admissibleTraversal, List.mem_filter, traversalMsgs]
    constructor
    · rw [List.mem_append, hg]
      left
      simp only [if_pos]
      rw [List.mem_reverse]
      exact hm
    · show (!kindRejected s m) = true
      have hmk : m = ⟨k.1, k.2⟩ := by
        have hk1 : m.kind = k.1 := by rw [← hmeq]; rfl
        have hk2 : m.content = k.2 := by rw [← hmeq]; rfl
        cases m
        simp only at hk1 hk2
        rw [hk1, hk2]
      rw [hmk, hkr]
      rfl
  constructor
  · rw [viewKeys_eq, countKey_reverse]
    exact countKey_eq_one_of_nodup k _ (nodup_foldedKeys _ _)
      ((mem_foldedKeys _ _ _).mpr ⟨hkadm, by simp⟩)
  · intro it hit hkey
    rw [derivedView_eq] at hit
    rcases List.mem_map.mp hit with ⟨k2, _, hkeq⟩
    have hk2 : k2 = k := by
      rw [← hkey, ← hkeq]
    have hcount : it.count = countKey k2 (admKeys s) := by
      rw [← hkeq]
    rw [hcount, hk2, countKey_admKeys s k hg he hkr]

/-- The S5 scenario: Game `[(Info, x)]`, Engine `[(Info, x), (Info, x)]`. -/
def c7State : LogChildOsWindow :=
  { baseState with
    messages_from_game := [⟨MessageKind.Information, ['x']⟩]
    messages_from_engine :=
      [⟨MessageKind.Information, ['x']⟩, ⟨MessageKind.Information, ['x']⟩] }

/-- C7 witness: the S5 scenario has exactly one view item, `("x" x3)`. -/
theorem claim_C7_witness :
    (countKey (MessageKind.Information, ['x']) (viewKeys c7State) = 1 ∧
     (∀ it ∈ derivedView c7State,
       (it.kind, it.content) = (MessageKind.Information, ['x']) →
       it.count =
         countKey (MessageKind.Information, ['x']) (c7State.messages_from_game.map keyOf) +
           countKey (MessageKind.Information, ['x'])
             (c7State.messages_from_engine.map keyOf))) ∧
    derivedView c7State = [⟨MessageKind.Information, ['x'], 3⟩] :=
  ⟨claim_C7 c7State (MessageKind.Information, ['x'])
      (by decide) (by decide) (by decide) (by decide) (by decide),
    by decide⟩

/-! ## Claim C1: the order law -/

theorem admissibleForward_reverse (s : LogChildOsWindow) :
    (admissibleForward s).reverse = admissibleTraversal s := by
  rw [admissibleForward, forwardUnion, admissibleTraversal_eq, List.filter_append,
    List.reverse_append]
  cases hg : s.game_checked <;> cases he : s.engine_checked <;>
    simp [List.filter_reverse]

theorem foldedKeys_order (A : List MsgKey) :
    ∀ (seen B C : List MsgKey) (k1 k2 : MsgKey),
      k2 ∉ A → k1 ∉ A → k1 ∉ B → k1 ≠ k2 → k1 ∉ seen → k2 ∉ seen →
      List.Sublist [k2, k1] (foldedKeys seen (A ++ k2 :: (B ++ k1 :: C))) := by
  induction A with
  | nil =>
    intro seen B C k1 k2 _ _ hB hne hs1 hs2
    rw [List.nil_append, foldedKeys, if_neg hs2]
    refine List.cons_sublist_cons.mpr (List.singleton_sublist.mpr ?_)
    rw [mem_foldedKeys]
    refine ⟨by simp, ?_⟩
    intro hc
    rcases List.mem_cons.mp hc with h | h
    · exact hne h
    · exact hs1 h
  | cons a A2 ih =>
    intro seen B C k1 k2 h2A h1A hB hne hs1 hs2
    have h2A2 : k2 ∉ A2 := fun hc => h2A (List.mem_cons_of_mem a hc)
    have h1A2 : k1 ∉ A2 := fun hc => h1A (List.mem_cons_of_mem a hc)
    have h2a : k2 ≠ a := fun hc => h2A (hc ▸ List.mem_cons_self a A2)
    have h1a : k1 ≠ a := fun hc => h1A (hc ▸ List.mem_cons_self a A2)
    rw [List.cons_append, foldedKeys]
    by_cases hs : a ∈ seen
    · rw [if_pos hs]
      exact ih seen B C k1 k2 h2A2 h1A2 hB hne hs1 hs2
    · rw [if_neg hs]
      refine List.Sublist.cons a ?_
      refine ih (a :: seen) B C k1 k2 h2A2 h1A2 hB hne ?_ ?_
      · intro hc
        rcases List.mem_cons.mp hc with h | h
        · exact h1a h
        · exact hs1 h
      · intro hc
        rcases List.mem_cons.mp hc with h | h
        · exact h2a h
        · exact hs2 h

/-- C1 (amended). Write the admissible records in the combined order "all
Engine-ring records before all Game-ring records, within each ring in send
order" (the reverse of the traversal done by the deriver). For every pair of admissible
records R1, R2 — with fold keys `k1`, `k2` — that are each the **last**
occurrence of their key in that combined order, if R1 comes strictly before R2
then the view item of R1 appears above that of R2 in the derived view. (The hypotheses
state exactly that: the key stream splits as `P ++ k1 :: Q ++ k2 :: R` with no
later occurrence of `k1` or `k2`.) -/
theorem claim_C1_amended (s : LogChildOsWindow) (P Q R : List MsgKey) (k1 k2 : MsgKey)
    (hsplit : (admissibleForward s).map keyOf = P ++ k1 :: (Q ++ k2 :: R))
    (hne : k1 ≠ k2) (hQ : k1 ∉ Q) (hR1 : k1 ∉ R) (hR2 : k2 ∉ R) :
    List.Sublist [k1, k2] (viewKeys s) := by
  have hT : admKeys s = R.reverse ++ k2 :: (Q.reverse ++ k1 :: P.reverse) := by
    rw [admKeys, ← admissibleForward_reverse, List.map_reverse, hsplit]
    simp [List.reverse_append, List.append_assoc]
  have hsub : List.Sublist [k2, k1] (foldedKeys [] (admKeys s)) := by
    rw [hT]
    exact foldedKeys_order R.reverse [] Q.reverse P.reverse k1 k2
      (by simpa using hR2) (by simpa using hR1) (by simpa using hQ) hne
      (by simp) (by simp)
  have hrev := hsub.reverse
  rw [viewKeys_eq]
  simpa using hrev

/-- Game ring `[g]`, Engine ring `[e]`, all filters on. -/
def c1State : LogChildOsWindow :=
  { baseState with
    messages_from_game := [⟨MessageKind.Information, ['g']⟩]
    messages_from_engine := [⟨MessageKind.Information, ['e']⟩] }

/-- C1 counterexample: in `c1State` each record is the unique — hence first —
occurrence of its key, and in the combined arrival order of the claim (all Game
records before all Engine records) the Game record `g` arrives strictly before
the Engine record `e`; the claim then requires the item of `g` above that of `e`,
the key order `[g, e]`. The derived view instead lists `e` above `g`. -/
theorem claim_C1_counterexample :
    viewKeys c1State =
      [(MessageKind.Information, ['e']), (MessageKind.Information, ['g'])] ∧
    ¬ List.Sublist
        [(MessageKind.Information, ['g']), (MessageKind.Information, ['e'])]
        (viewKeys c1State) := by
  constructor
  · decide
  · decide

/-- C1 witness: in `c1State`, under the amended (Engine-first) order the
Engine record `e` precedes the Game record `g`, both last occurrences of their
keys, and indeed the item of `e` sits above that of `g` in the view. -/
theorem claim_C1_amended_witness :
    List.Sublist
      [(MessageKind.Information, ['e']), (MessageKind.Information, ['g'])]
      (viewKeys c1State) :=
  claim_C1_amended c1State [] [] []
    (MessageKind.Information, ['e']) (MessageKind.Information, ['g'])
    (by decide) (by decide) (by decide) (by decide) (by decide)

end LogView
